import Mathlib

/-!
Verification development for a small Go file-sharing service.
The definitions below are a shallow embedding of the Go source
(core.go): the in-memory registry of file records, the on-disk
content store, the upload/download/delete/cleanup handlers, the
JSON persistence layer, the search/listing query engine, and the
lock/IO action traces of the operations.  Machine integers are
modelled as Nat/Int with explicit reduction mod 2^32 where the
Go code relies on 32-bit word arithmetic (SHA-256).
-/

namespace Uploads

/-! ## SHA-256 (crypto/sha256 as used by calculateChecksum)

Bytes are Nat values below 256; 32-bit words are Nat values reduced
mod 2^32 after every arithmetic operation, exactly as the Go uint32
wraps. -/

def w32 (n : Nat) : Nat := n % 4294967296

def rotr32 (n x : Nat) : Nat := w32 ((x >>> n) ||| (x <<< (32 - n)))

def shr32 (n x : Nat) : Nat := x >>> n

def not32 (x : Nat) : Nat := x ^^^ 4294967295

def bigSigma0 (x : Nat) : Nat := rotr32 2 x ^^^ rotr32 13 x ^^^ rotr32 22 x

def bigSigma1 (x : Nat) : Nat := rotr32 6 x ^^^ rotr32 11 x ^^^ rotr32 25 x

def smallSigma0 (x : Nat) : Nat := rotr32 7 x ^^^ rotr32 18 x ^^^ shr32 3 x

def smallSigma1 (x : Nat) : Nat := rotr32 17 x ^^^ rotr32 19 x ^^^ shr32 10 x

def sha256K : List Nat :=
  [1116352408, 1899447441, 3049323471, 3921009573, 961987163, 1508970993,
   2453635748, 2870763221, 3624381080, 310598401, 607225278, 1426881987,
   1925078388, 2162078206, 2614888103, 3248222580, 3835390401, 4022224774,
   264347078, 604807628, 770255983, 1249150122, 1555081692, 1996064986,
   2554220882, 2821834349, 2952996808, 3210313671, 3336571891, 3584528711,
   113926993, 338241895, 666307205, 773529912, 1294757372, 1396182291,
   1695183700, 1986661051, 2177026350, 2456956037, 2730485921, 2820302411,
   3259730800, 3345764771, 3516065817, 3600352804, 4094571909, 275423344,
   430227734, 506948616, 659060556, 883997877, 958139571, 1322822218,
   1537002063, 1747873779, 1955562222, 2024104815, 2227730452, 2361852424,
   2428436474, 2756734187, 3204031479, 3329325298]

def sha256H0 : List Nat :=
  [1779033703, 3144134277, 1013904242, 2773480762,
   1359893119, 2600822924, 528734635, 1541459225]

/-- Big-endian byte encoding of a natural number into a fixed width. -/
def toBEBytes (width n : Nat) : List Nat :=
  (List.range width).map (fun i => (n >>> (8 * (width - 1 - i))) % 256)

/-- SHA-256 padding: append 0x80, zeros, and the 64-bit bit length. -/
def sha256Pad (msg : List Nat) : List Nat :=
  let l := msg.length
  let k := (119 - l % 64) % 64
  msg ++ [0x80] ++ List.replicate k 0 ++ toBEBytes 8 (8 * l)

/-- Group bytes into big-endian 32-bit words. -/
def bytesToWords : List Nat → List Nat
  | a :: b :: c :: d :: rest => (((a * 256 + b) * 256 + c) * 256 + d) :: bytesToWords rest
  | _ => []

/-- Split a byte list into 64-byte chunks (fuel-based structural recursion
so that the kernel can evaluate it). -/
def chunksAux : Nat → List Nat → List (List Nat)
  | 0, _ => []
  | _, [] => []
  | fuel + 1, l => l.take 64 :: chunksAux fuel (l.drop 64)

def chunks64 (l : List Nat) : List (List Nat) := chunksAux l.length l

/-- Extend the 16-word block to the 64-word message schedule. -/
def extendSched : Nat → List Nat → List Nat
  | 0, ws => ws
  | n + 1, ws =>
    let i := ws.length
    let w := w32 (smallSigma1 (ws.getD (i - 2) 0) + ws.getD (i - 7) 0 +
                  smallSigma0 (ws.getD (i - 15) 0) + ws.getD (i - 16) 0)
    extendSched n (ws ++ [w])

def sched (block : List Nat) : List Nat := extendSched 48 (bytesToWords block)

/-- One round of the SHA-256 compression function on [a,b,c,d,e,f,g,h]. -/
def compressStep (k w : Nat) (st : List Nat) : List Nat :=
  match st with
  | [a, b, c, d, e, f, g, h] =>
    let ch := (e &&& f) ^^^ (not32 e &&& g)
    let maj := (a &&& b) ^^^ (a &&& c) ^^^ (b &&& c)
    let t1 := w32 (h + bigSigma1 e + ch + k + w)
    let t2 := w32 (bigSigma0 a + maj)
    [w32 (t1 + t2), a, b, c, w32 (d + t1), e, f, g]
  | other => other

def compressBlock (h : List Nat) (block : List Nat) : List Nat :=
  let final := (List.zip sha256K (sched block)).foldl
    (fun st kw => compressStep kw.1 kw.2 st) h
  List.zipWith (fun x y => w32 (x + y)) h final

def sha256Words (msg : List Nat) : List Nat :=
  (chunks64 (sha256Pad msg)).foldl compressBlock sha256H0

def hexChar (n : Nat) : Char :=
  if n < 10 then Char.ofNat (48 + n) else Char.ofNat (87 + n)

def word32Hex (n : Nat) : String :=
  String.mk ((List.range 8).map (fun i => hexChar ((n >>> (4 * (7 - i))) % 16)))

/-- Hex digest exactly as hex.EncodeToString(hash.Sum(nil)) produces it. -/
def sha256Hex (msg : List Nat) : String :=
  String.join ((sha256Words msg).map word32Hex)

example : sha256Hex [] = "e3b0c44298fc1c149afbf4c8996fb92427ae41e4649b934ca495991b7852b855" := by decide

example : sha256Hex [0x61, 0x62, 0x63] =
    "ba7816bf8f01cfea414140de5dae2223b00361a396177a9cb410ff61f20015ad" := by decide

/-! ## Data model (type FileInfo and the FileManager state)

Timestamps are Int nanoseconds since the epoch (Go time.Time ordering);
time.After is strict <.  The Go map[string]*FileInfo is modelled as an
association list keyed by id, and the upload directory (content store)
as an association list from path to byte contents. -/

structure FileInfo where
  id : String
  filename : String
  originalName : String
  size : Int
  contentType : String
  checksum : String
  uploadTime : Int
  expiresAt : Int
  downloads : Int
  maxDownloads : Int
  password : String
  uploaderIP : String
  tags : List String
  description : String
  path : String
  metadata : List (String × String)
deriving DecidableEq, Repr

structure Sys where
  files : List (String × FileInfo)
  disk : List (String × List Nat)
deriving DecidableEq, Repr

/-- Remove a key from an association list (Go delete / os.Remove). -/
def eraseKey {α : Type} (k : String) (m : List (String × α)) : List (String × α) :=
  m.filter (fun p => !(p.1 == k))

/-- Replace the value stored at a key (mutation through the Go pointer). -/
def setKey {α : Type} (k : String) (v : α) (m : List (String × α)) : List (String × α) :=
  m.map (fun p => if p.1 == k then (k, v) else p)

/-- Insert a fresh key (Go map assignment for a new id / os.Create). -/
def insertKey {α : Type} (k : String) (v : α) (m : List (String × α)) : List (String × α) :=
  eraseKey k m ++ [(k, v)]

/-! ## Handlers (FileManager methods, shallow embedding)

Each handler is the state transformer of the corresponding Go method,
evaluated sequentially; the lock/IO structure of the same methods is
modelled separately below as action traces. -/

inductive DownloadResult where
  | notFound
  | unauthorized
  | expired
  | limitReached
  | ok (body : Option (List Nat)) (contentType : String) (checksumHeader : String)
deriving DecidableEq, Repr

/-- FileManager.downloadFile: lookup, password check, lazy expiry
(removing the record and its bytes), limit check, counter increment,
then serving the bytes with the stored checksum header. -/
def downloadFile (now : Int) (fileID pw : String) (s : Sys) : Sys × DownloadResult :=
  match List.lookup fileID s.files with
  | none => (s, .notFound)
  | some fi =>
    if fi.password != "" && fi.password != pw then (s, .unauthorized)
    else if fi.expiresAt < now then
      ({ files := eraseKey fileID s.files, disk := eraseKey fi.path s.disk }, .expired)
    else if fi.maxDownloads > 0 && fi.maxDownloads ≤ fi.downloads then (s, .limitReached)
    else
      ({ s with files := setKey fileID { fi with downloads := fi.downloads + 1 } s.files },
       .ok (List.lookup fi.path s.disk) fi.contentType fi.checksum)

inductive InfoResult where
  | notFound
  | ok (f : FileInfo)
deriving DecidableEq, Repr

/-- FileManager.fileInfo: a bare lookup, with no expiry or limit check. -/
def fileInfo (fileID : String) (s : Sys) : InfoResult :=
  match List.lookup fileID s.files with
  | none => .notFound
  | some fi => .ok fi

inductive DeleteResult where
  | deleted
  | notFound
deriving DecidableEq, Repr

/-- FileManager.deleteFile: removes record then bytes if the id is
present; answers 404 File not found otherwise. -/
def deleteFile (fileID : String) (s : Sys) : Sys × DeleteResult :=
  match List.lookup fileID s.files with
  | none => (s, .notFound)
  | some fi =>
    ({ files := eraseKey fileID s.files, disk := eraseKey fi.path s.disk }, .deleted)

/-- One iteration of the bulkDelete loop body. -/
def bulkStep (acc : Sys × Nat) (fileID : String) : Sys × Nat :=
  match List.lookup fileID acc.1.files with
  | none => acc
  | some fi =>
    ({ files := eraseKey fileID acc.1.files, disk := eraseKey fi.path acc.1.disk },
     acc.2 + 1)

/-- FileManager.bulkDelete: per id, silently skip absent ids; returns the
count of records actually deleted (the response also reports the total
number of requested ids). -/
def bulkDelete (ids : List String) (s : Sys) : Sys × Nat :=
  ids.foldl bulkStep (s, 0)

/-- The sweeper eligibility predicate of FileManager.cleanup:
now.After(ExpiresAt) OR (MaxDownloads > 0 AND Downloads >= MaxDownloads). -/
def cleanupEligible (now : Int) (fi : FileInfo) : Bool :=
  (fi.expiresAt < now) || (fi.maxDownloads > 0 && fi.maxDownloads ≤ fi.downloads)

/-- One iteration of the cleanup loop body. -/
def cleanupStep (now : Int) (acc : Sys × Nat) (p : String × FileInfo) : Sys × Nat :=
  if cleanupEligible now p.2 then
    ({ files := eraseKey p.1 acc.1.files, disk := eraseKey p.2.path acc.1.disk },
     acc.2 + 1)
  else acc

/-- FileManager.cleanup state effect: for each eligible record, remove
its bytes then its registry entry; returns the cleaned count. -/
def cleanup (now : Int) (s : Sys) : Sys × Nat :=
  s.files.foldl (cleanupStep now) (s, 0)

/-! ## Upload -/

structure UploadParams where
  bytes : List Nat
  headerFilename : String
  contentType : String
  ttl : Int
  maxDownloads : Int
  password : String
  description : String
  tags : List String
  remoteAddr : String
  now : Int
  fileID : String
  uploadDir : String
deriving DecidableEq, Repr

/-- strings.ReplaceAll(name, " ", "_"). -/
def sanitizeName (st : String) : String :=
  String.mk (st.toList.map (fun c => if c = ' ' then '_' else c))

/-- The FileInfo record built by FileManager.uploadFile. -/
def mkFileInfo (p : UploadParams) : FileInfo :=
  let safe := sanitizeName p.headerFilename
  { id := p.fileID
    filename := safe
    originalName := p.headerFilename
    size := Int.ofNat p.bytes.length
    contentType := p.contentType
    checksum := sha256Hex p.bytes
    uploadTime := p.now
    expiresAt := p.now + p.ttl
    downloads := 0
    maxDownloads := p.maxDownloads
    password := p.password
    uploaderIP := p.remoteAddr
    tags := p.tags
    description := p.description
    path := p.uploadDir ++ "/" ++ p.fileID ++ "_" ++ safe
    metadata := [] }

/-- Failure points of FileManager.uploadFile: each early return in the
source.  tempFail covers CreateTemp / copy-to-temp / checksum errors
(the temp file is removed by defer, nothing visible changes);
dstCreateFail covers os.Create failing; dstCopyFail covers io.Copy to
the final location failing after writing a partial chunk. -/
inductive UploadOutcome where
  | tempFail
  | dstCreateFail
  | dstCopyFail (written : List Nat)
  | success
deriving DecidableEq, Repr

/-- FileManager.uploadFile: on success the bytes are placed at the final
path and only then is the record inserted into the registry; every
failure path returns before the registry insert. -/
def uploadFile (outcome : UploadOutcome) (p : UploadParams) (s : Sys) :
    Sys × Option FileInfo :=
  match outcome with
  | .tempFail => (s, none)
  | .dstCreateFail => (s, none)
  | .dstCopyFail written =>
    ({ s with disk := insertKey (mkFileInfo p).path written s.disk }, none)
  | .success =>
    let fi := mkFileInfo p
    ({ files := insertKey p.fileID fi s.files, disk := insertKey fi.path p.bytes s.disk },
     some fi)

/-! ## Persistence (saveMetadata / loadMetadata)

The JSON wire form of a record: every field has a stable name and only
Password carries omitempty, so the wire type differs from FileInfo
exactly in making the password optional. -/

structure FileInfoWire where
  id : String
  filename : String
  originalName : String
  size : Int
  contentType : String
  checksum : String
  uploadTime : Int
  expiresAt : Int
  downloads : Int
  maxDownloads : Int
  password : Option String
  uploaderIP : String
  tags : List String
  description : String
  path : String
  metadata : List (String × String)
deriving DecidableEq, Repr

/-- json.Marshal of one record (password,omitempty drops ""). -/
def encodeFileInfo (f : FileInfo) : FileInfoWire :=
  { id := f.id, filename := f.filename, originalName := f.originalName,
    size := f.size, contentType := f.contentType, checksum := f.checksum,
    uploadTime := f.uploadTime, expiresAt := f.expiresAt,
    downloads := f.downloads, maxDownloads := f.maxDownloads,
    password := if f.password = "" then none else some f.password,
    uploaderIP := f.uploaderIP, tags := f.tags,
    description := f.description, path := f.path, metadata := f.metadata }

/-- json.Unmarshal of one record (a missing password field decodes to
the zero string). -/
def decodeFileInfo (w : FileInfoWire) : FileInfo :=
  { id := w.id, filename := w.filename, originalName := w.originalName,
    size := w.size, contentType := w.contentType, checksum := w.checksum,
    uploadTime := w.uploadTime, expiresAt := w.expiresAt,
    downloads := w.downloads, maxDownloads := w.maxDownloads,
    password := w.password.getD "",
    uploaderIP := w.uploaderIP, tags := w.tags,
    description := w.description, path := w.path, metadata := w.metadata }

/-- FileManager.saveMetadata: marshal the whole registry. -/
def saveMetadata (files : List (String × FileInfo)) : List (String × FileInfoWire) :=
  files.map (fun p => (p.1, encodeFileInfo p.2))

/-- os.Stat on the content store. -/
def statOk (disk : List (String × List Nat)) (path : String) : Bool :=
  (List.lookup path disk).isSome

/-- FileManager.loadMetadata: a missing or unreadable snapshot means a
fresh (empty) registry; otherwise decode and drop every record whose
path no longer resolves to a file on disk. -/
def loadMetadata (snapshot : Option (List (String × FileInfoWire)))
    (disk : List (String × List Nat)) : List (String × FileInfo) :=
  match snapshot with
  | none => []
  | some ws =>
    (ws.map (fun p => (p.1, decodeFileInfo p.2))).filter (fun p => statOk disk p.2.path)

/-! ## Query engine (searchFiles, manageFiles, listFilesAPI)

sort.Slice with a strict greater-than comparator is modelled as
mergeSort with the corresponding non-strict descending order; the
observable guarantees are sortedness and permutation. -/

/-- strings.Contains. -/
def strContains (hay needle : String) : Bool :=
  decide (List.IsInfix needle.toList hay.toList)

/-- strings.EqualFold (ASCII-adequate model via toLower). -/
def equalFold (a b : String) : Bool := a.toLower == b.toLower

/-- The per-record filter of FileManager.searchFiles: a conjunction of
the optional case-insensitive substring filter on filename or
description and the optional case-insensitive exact tag filter. -/
def searchMatches (q tag : String) (fi : FileInfo) : Bool :=
  (q == "" || strContains fi.filename.toLower q.toLower ||
    strContains fi.description.toLower q.toLower) &&
  (tag == "" || fi.tags.any (fun t => equalFold t tag))

def bySizeDesc : FileInfo → FileInfo → Prop := fun a b => b.size ≤ a.size

def byDownloadsDesc : FileInfo → FileInfo → Prop := fun a b => b.downloads ≤ a.downloads

def byTimeDesc : FileInfo → FileInfo → Prop := fun a b => b.uploadTime ≤ a.uploadTime

instance : DecidableRel bySizeDesc :=
  fun a b => inferInstanceAs (Decidable (b.size ≤ a.size))

instance : DecidableRel byDownloadsDesc :=
  fun a b => inferInstanceAs (Decidable (b.downloads ≤ a.downloads))

instance : DecidableRel byTimeDesc :=
  fun a b => inferInstanceAs (Decidable (b.uploadTime ≤ a.uploadTime))

instance : IsTotal FileInfo bySizeDesc :=
  ⟨fun a b => Int.le_total b.size a.size⟩

instance : IsTotal FileInfo byDownloadsDesc :=
  ⟨fun a b => Int.le_total b.downloads a.downloads⟩

instance : IsTotal FileInfo byTimeDesc :=
  ⟨fun a b => Int.le_total b.uploadTime a.uploadTime⟩

instance : IsTrans FileInfo bySizeDesc :=
  ⟨fun _ _ _ hab hbc => le_trans hbc hab⟩

instance : IsTrans FileInfo byDownloadsDesc :=
  ⟨fun _ _ _ hab hbc => le_trans hbc hab⟩

instance : IsTrans FileInfo byTimeDesc :=
  ⟨fun _ _ _ hab hbc => le_trans hbc hab⟩

/-- The sort switch of FileManager.searchFiles: size descending,
download count descending, or (default) upload time descending.
sort.Slice with a strict greater-than comparator is modelled as a
sort along the corresponding non-strict descending order. -/
def sortFiles (sortBy : String) (l : List FileInfo) : List FileInfo :=
  match sortBy with
  | "size" => List.insertionSort bySizeDesc l
  | "downloads" => List.insertionSort byDownloadsDesc l
  | _ => List.insertionSort byTimeDesc l

/-- FileManager.searchFiles: filter under the read lock, then sort; the
registry state is returned unchanged (no mutation).  The handler reads
only q, tag and sort from the request; it has no pagination inputs. -/
def searchFiles (q tag sortBy : String) (s : Sys) : Sys × List FileInfo :=
  (s, sortFiles sortBy ((s.files.map Prod.snd).filter (searchMatches q tag)))

/-- FileManager.manageFiles (JSON branch): every record, upload time
descending. -/
def manageFiles (s : Sys) : Sys × List FileInfo :=
  (s, List.insertionSort byTimeDesc (s.files.map Prod.snd))

/-- limit parsing of FileManager.listFilesAPI: accepted only when
0 < limit <= 1000, otherwise the default 50.  none stands for an absent
or unparseable query value. -/
def clampLimit (raw : Option Int) : Nat :=
  match raw with
  | some l => if 0 < l && l ≤ 1000 then l.toNat else 50
  | none => 50

/-- offset parsing of FileManager.listFilesAPI: accepted when >= 0. -/
def clampOffset (raw : Option Int) : Nat :=
  match raw with
  | some o => if 0 ≤ o then o.toNat else 0
  | none => 0

/-- FileManager.listFilesAPI: all records sorted by upload time
descending, then the page files[offset:offset+limit]; no filters.
Returns (page, total). -/
def listFilesAPI (rawLimit rawOffset : Option Int) (s : Sys) :
    Sys × (List FileInfo × Nat) :=
  let sorted := List.insertionSort byTimeDesc (s.files.map Prod.snd)
  ((s, ((sorted.drop (clampOffset rawOffset)).take (clampLimit rawLimit), sorted.length)))

/-! ## JSON serialization of records as emitted to clients

json.NewEncoder(w).Encode on a *FileInfo (used verbatim by fileInfo,
searchFiles and manageFiles) emits every struct field under its json
tag; only password carries omitempty. -/

def jsonFields (f : FileInfo) : List (String × String) :=
  [("id", f.id), ("filename", f.filename), ("original_name", f.originalName),
   ("size", toString f.size), ("content_type", f.contentType),
   ("checksum", f.checksum), ("upload_time", toString f.uploadTime),
   ("expires_at", toString f.expiresAt), ("downloads", toString f.downloads),
   ("max_downloads", toString f.maxDownloads)] ++
  (if f.password = "" then [] else [("password", f.password)]) ++
  [("uploader_ip", f.uploaderIP), ("tags", String.intercalate "," f.tags),
   ("description", f.description), ("path", f.path)]

/-- The serialized body of the /info/ handler. -/
def fileInfoJson (fileID : String) (s : Sys) : Option (List (String × String)) :=
  (List.lookup fileID s.files).map jsonFields

/-- The serialized body of the /search handler. -/
def searchFilesJson (q tag sortBy : String) (s : Sys) : List (List (String × String)) :=
  (searchFiles q tag sortBy s).2.map jsonFields

/-- The serialized body of the /manage handler (JSON branch). -/
def manageFilesJson (s : Sys) : List (List (String × String)) :=
  (manageFiles s).2.map jsonFields

/-! ## Lock and I/O action traces

Each FileManager method is abstracted to the sequence of lock
operations, in-memory map accesses, and disk I/O actions it performs,
in source order.  runTrace executes the trace of one goroutine: sync.RWMutex
is not reentrant, so an acquisition that blocks while the same trace
already holds a conflicting lock can never be released by anyone and
the run is stuck (deadlock). -/

inductive Act where
  | lockW
  | unlockW
  | lockR
  | unlockR
  | removeContent (path : String)
  | removeRecord (id : String)
  | readContent (path : String)
  | writeSnapshot
  | readMem
deriving DecidableEq, Repr

def Act.isDisk : Act → Bool
  | .removeContent _ => true
  | .readContent _ => true
  | .writeSnapshot => true
  | _ => false

structure LockSt where
  w : Bool
  r : Nat
deriving DecidableEq, Repr

def lockFree : LockSt := { w := false, r := 0 }

def held (st : LockSt) : Bool := st.w || st.r > 0

/-- One lock transition; none when the acquisition blocks. -/
def stepLock (st : LockSt) : Act → Option LockSt
  | .lockW => if st.w || st.r > 0 then none else some { w := true, r := 0 }
  | .unlockW => some { st with w := false }
  | .lockR => if st.w then none else some { st with r := st.r + 1 }
  | .unlockR => some { st with r := st.r - 1 }
  | _ => some st

/-- Run a whole trace; none means the goroutine deadlocked. -/
def runTrace : LockSt → List Act → Option LockSt
  | st, [] => some st
  | st, a :: rest =>
    match stepLock st a with
    | none => none
    | some st2 => runTrace st2 rest

/-- true iff no disk I/O action executes while a lock is held (actions
after a blocked acquisition never execute). -/
def ioFreeOfLock : LockSt → List Act → Bool
  | _, [] => true
  | st, a :: rest =>
    if a.isDisk && held st then false
    else
      match stepLock st a with
      | none => true
      | some st2 => ioFreeOfLock st2 rest

/-- saveMetadata: RLock, defer RUnlock, json.Marshal, os.WriteFile.
The deferred RUnlock runs only after WriteFile returns. -/
def saveMetadataTrace : List Act :=
  [Act.lockR, Act.readMem, Act.writeSnapshot, Act.unlockR]

/-- cleanup: Lock, defer Unlock; per eligible record os.Remove then
delete; then, still before the deferred Unlock, saveMetadata when
anything was cleaned. -/
def cleanupTrace (now : Int) (s : Sys) : List Act :=
  let elig := s.files.filter (fun p => cleanupEligible now p.2)
  [Act.lockW] ++
  (elig.map (fun p => [Act.removeContent p.2.path, Act.removeRecord p.1])).flatten ++
  (if elig.length > 0 then saveMetadataTrace else []) ++
  [Act.unlockW]

/-- deleteFile: Lock, lookup+delete, Unlock; then os.Remove and
saveMetadata outside the write lock (only when the id was present). -/
def deleteFileTrace (fileID : String) (s : Sys) : List Act :=
  match List.lookup fileID s.files with
  | none => [Act.lockW, Act.readMem, Act.unlockW]
  | some fi =>
    [Act.lockW, Act.readMem, Act.removeRecord fileID, Act.unlockW,
     Act.removeContent fi.path] ++ saveMetadataTrace

/-- bulkDelete: Lock, defer-free loop removing bytes and records under
the write lock, Unlock, then saveMetadata when anything was deleted. -/
def bulkDeleteTrace (ids : List String) (s : Sys) : List Act :=
  let del := (bulkDelete ids s).2
  [Act.lockW] ++
  (ids.map (fun i =>
    match List.lookup i s.files with
    | none => [Act.readMem]
    | some fi => [Act.readMem, Act.removeContent fi.path, Act.removeRecord i])).flatten ++
  [Act.unlockW] ++
  (if del > 0 then saveMetadataTrace else [])

/-- downloadFile, successful path: RLock-guarded lookup, unlocked checks,
locked counter increment, then http.ServeFile reading the bytes with no
lock held (the trailing saveMetadata runs in its own goroutine). -/
def downloadTrace (path : String) : List Act :=
  [Act.lockR, Act.readMem, Act.unlockR, Act.readMem,
   Act.lockW, Act.readMem, Act.unlockW, Act.readContent path]

/-! ## Two concurrent downloads of one record (C1)

The limit check at line 402 of core.go reads Downloads with no lock
held; the increment at line 409 takes the write lock.  A thread is at
pc 0 before its check, at pc 1 between check and increment, at pc 2
after being granted the file, at pc 3 after failing with LimitReached.
A schedule is a list of booleans: true runs one atomic action of
thread 1, false one of thread 2. -/

structure RaceSt where
  downloads : Int
  pc1 : Nat
  pc2 : Nat
deriving DecidableEq, Repr

/-- The guard of the unlocked limit check: proceed unless
MaxDownloads > 0 and Downloads >= MaxDownloads. -/
def raceCheck (maxDownloads downloads : Int) : Bool :=
  !(maxDownloads > 0 && maxDownloads ≤ downloads)

def raceStep (maxDownloads : Int) (s : RaceSt) (which : Bool) : RaceSt :=
  if which then
    match s.pc1 with
    | 0 => if raceCheck maxDownloads s.downloads then { s with pc1 := 1 }
           else { s with pc1 := 3 }
    | 1 => { s with downloads := s.downloads + 1, pc1 := 2 }
    | _ => s
  else
    match s.pc2 with
    | 0 => if raceCheck maxDownloads s.downloads then { s with pc2 := 1 }
           else { s with pc2 := 3 }
    | 1 => { s with downloads := s.downloads + 1, pc2 := 2 }
    | _ => s

def raceRun (maxDownloads : Int) (sched : List Bool) (s : RaceSt) : RaceSt :=
  sched.foldl (raceStep maxDownloads) s

/-! ## Concrete fixtures -/

def bytesE : List Nat := [1, 2, 3]

def bytesL : List Nat := [9, 9, 9, 9, 9]

/-- A record whose TTL has passed at time 200. -/
def fiExp : FileInfo :=
  { id := "e", filename := "e.txt", originalName := "e.txt", size := 3,
    contentType := "text/plain", checksum := "ck-e", uploadTime := 50,
    expiresAt := 100, downloads := 0, maxDownloads := 0, password := "",
    uploaderIP := "ip1", tags := ["work"], description := "expired one",
    path := "files/e_e.txt", metadata := [] }

/-- A record still live at time 200, with a password. -/
def fiLive : FileInfo :=
  { id := "l", filename := "l.txt", originalName := "l.txt", size := 5,
    contentType := "text/plain", checksum := "ck-l", uploadTime := 60,
    expiresAt := 1000, downloads := 2, maxDownloads := 5, password := "abc",
    uploaderIP := "ip2", tags := ["work", "x"], description := "live one",
    path := "files/l_l.txt", metadata := [] }

/-- A record that has exhausted its download limit. -/
def fiLim : FileInfo :=
  { id := "m", filename := "m.txt", originalName := "m.txt", size := 1,
    contentType := "text/plain", checksum := "ck-m", uploadTime := 70,
    expiresAt := 1000, downloads := 1, maxDownloads := 1, password := "",
    uploaderIP := "ip3", tags := [], description := "", path := "files/m_m.txt",
    metadata := [] }

def sysMix : Sys :=
  { files := [("e", fiExp), ("l", fiLive)],
    disk := [("files/e_e.txt", bytesE), ("files/l_l.txt", bytesL)] }

def sysLive : Sys :=
  { files := [("l", fiLive)], disk := [("files/l_l.txt", bytesL)] }

def sysLim : Sys :=
  { files := [("m", fiLim)], disk := [("files/m_m.txt", [7])] }

/-- Concrete upload request used by witnesses. -/
def upTest : UploadParams :=
  { bytes := [0x61, 0x62, 0x63], headerFilename := "a b.txt",
    contentType := "text/plain", ttl := 100, maxDownloads := 0,
    password := "", description := "", tags := [], remoteAddr := "ip",
    now := 10, fileID := "fid", uploadDir := "files" }

/-! ## Invariant predicates and comparison definitions -/

/-- The registry ids are pairwise distinct. -/
abbrev keysNodup (files : List (String × FileInfo)) : Prop :=
  (files.map Prod.fst).Nodup

/-- The content paths of the records are pairwise distinct. -/
abbrev pathsNodup (files : List (String × FileInfo)) : Prop :=
  (files.map (fun p => p.2.path)).Nodup

/-- The content path of every registry record resolves to bytes on disk. -/
abbrev regPathsOnDisk (s : Sys) : Prop :=
  ∀ p ∈ s.files, (List.lookup p.2.path s.disk).isSome = true

/-- The registry/content-store consistency invariant. -/
abbrev SysInv (s : Sys) : Prop :=
  keysNodup s.files ∧ pathsNodup s.files ∧ regPathsOnDisk s

/-- Position of the first occurrence of an action in a trace. -/
def firstIndexOf (a : Act) (t : List Act) : Option Nat :=
  t.findIdx? (fun b => b == a)

/-- true iff the trace removes the registry entry before the content
bytes, the order §4.4 of the spec claims for the sweeper. -/
def removesRegistryThenContent (t : List Act) (id path : String) : Bool :=
  match firstIndexOf (Act.removeRecord id) t, firstIndexOf (Act.removeContent path) t with
  | some i, some j => decide (i < j)
  | _, _ => false

/-- Modelled from the spec (§4.5, Query Engine), not from the source:
the claimed single search pipeline — filter, then sort, then paginate
with clamped offset and limit.  Defined only to be compared with the
searchFiles of the source, which has no pagination inputs. -/
def queryEngineSpec (q tag sortBy : String) (rawLimit rawOffset : Option Int)
    (s : Sys) : List FileInfo :=
  ((sortFiles sortBy ((s.files.map Prod.snd).filter (searchMatches q tag))).drop
    (clampOffset rawOffset)).take (clampLimit rawLimit)

/-! ## Helper lemmas on the association-list operations -/

theorem mem_of_lookup_eq_some {α : Type} {k : String} {v : α} :
    ∀ {m : List (String × α)}, List.lookup k m = some v → (k, v) ∈ m := by
  intro m
  induction m with
  | nil => intro h; simp [List.lookup] at h
  | cons a m ih =>
    obtain ⟨ka, va⟩ := a
    intro h
    by_cases hk : k = ka
    · subst hk
      simp [List.lookup] at h
      simp [h]
    · simp [List.lookup, beq_false_of_ne hk] at h
      exact List.mem_cons_of_mem _ (ih h)

theorem mem_eraseKey {α : Type} {k : String} {p : String × α} {m : List (String × α)} :
    p ∈ eraseKey k m ↔ p ∈ m ∧ p.1 ≠ k := by
  simp [eraseKey, List.mem_filter]

theorem lookup_eraseKey_self {α : Type} (k : String) (m : List (String × α)) :
    List.lookup k (eraseKey k m) = none := by
  induction m with
  | nil => rfl
  | cons a m ih =>
    obtain ⟨ka, va⟩ := a
    by_cases hk : k = ka
    · subst hk; simpa [eraseKey] using ih
    · simpa [eraseKey, List.lookup, beq_false_of_ne hk, Ne.symm hk] using ih

theorem lookup_eraseKey_ne {α : Type} {k2 k : String} (m : List (String × α))
    (h : k2 ≠ k) : List.lookup k2 (eraseKey k m) = List.lookup k2 m := by
  induction m with
  | nil => rfl
  | cons a m ih =>
    obtain ⟨ka, va⟩ := a
    by_cases hk : ka = k
    · subst hk; simpa [eraseKey, List.lookup, beq_false_of_ne h] using ih
    · by_cases h2 : k2 = ka
      · subst h2; simp [eraseKey, List.lookup, beq_false_of_ne h]
      · simpa [eraseKey, List.lookup, beq_false_of_ne h2, beq_false_of_ne hk] using ih

theorem lookup_append_single_self {α : Type} {k : String} {v : α}
    {m : List (String × α)} (h : List.lookup k m = none) :
    List.lookup k (m ++ [(k, v)]) = some v := by
  induction m with
  | nil => simp [List.lookup]
  | cons a m ih =>
    obtain ⟨ka, va⟩ := a
    by_cases hk : k = ka
    · subst hk; simp only [List.lookup, beq_self_eq_true] at h; exact absurd h (by simp)
    · simp only [List.lookup, beq_false_of_ne hk, List.cons_append] at h ⊢
      exact ih h

theorem lookup_append_single_ne {α : Type} {k2 k : String} {v : α}
    (m : List (String × α)) (h : k2 ≠ k) :
    List.lookup k2 (m ++ [(k, v)]) = List.lookup k2 m := by
  induction m with
  | nil => simp [List.lookup, beq_false_of_ne h]
  | cons a m ih =>
    obtain ⟨ka, va⟩ := a
    by_cases hk : k2 = ka
    · subst hk; simp [List.lookup]
    · simpa [List.lookup, beq_false_of_ne hk] using ih

theorem lookup_insertKey_self {α : Type} (k : String) (v : α) (m : List (String × α)) :
    List.lookup k (insertKey k v m) = some v :=
  lookup_append_single_self (lookup_eraseKey_self k m)

theorem lookup_insertKey_ne {α : Type} {k2 k : String} (v : α) (m : List (String × α))
    (h : k2 ≠ k) : List.lookup k2 (insertKey k v m) = List.lookup k2 m := by
  rw [insertKey, lookup_append_single_ne _ h, lookup_eraseKey_ne _ h]

theorem mem_insertKey {α : Type} {k : String} {v : α} {p : String × α}
    {m : List (String × α)} (h : p ∈ insertKey k v m) :
    p = (k, v) ∨ (p ∈ m ∧ p.1 ≠ k) := by
  rcases List.mem_append.mp h with h2 | h2
  · exact Or.inr (mem_eraseKey.mp h2)
  · simp at h2; exact Or.inl h2

theorem keys_setKey {α : Type} (k : String) (v : α) (m : List (String × α)) :
    (setKey k v m).map Prod.fst = m.map Prod.fst := by
  simp only [setKey, List.map_map]
  apply List.map_congr_left
  intro p _
  by_cases h : p.1 = k
  · simp [h]
  · simp [beq_false_of_ne h, h]

theorem mem_setKey {α : Type} {k : String} {v : α} {p : String × α}
    {m : List (String × α)} (h : p ∈ setKey k v m) :
    (p ∈ m ∧ p.1 ≠ k) ∨ p = (k, v) := by
  rcases List.mem_map.mp h with ⟨q, hq, hgq⟩
  by_cases hk : q.1 = k
  · simp [hk] at hgq; exact Or.inr hgq.symm
  · simp [beq_false_of_ne hk] at hgq; subst hgq; exact Or.inl ⟨hq, hk⟩

theorem lookup_unique {α : Type} {k : String} {v : α} :
    ∀ {m : List (String × α)}, (m.map Prod.fst).Nodup →
      List.lookup k m = some v → ∀ q ∈ m, q.1 = k → q.2 = v := by
  intro m
  induction m with
  | nil => intro _ h; simp [List.lookup] at h
  | cons a m ih =>
    obtain ⟨ka, va⟩ := a
    intro hnd hl q hq hqk
    simp only [List.map_cons, List.nodup_cons] at hnd
    by_cases hk : k = ka
    · subst hk
      simp [List.lookup] at hl
      rcases List.mem_cons.mp hq with h2 | h2
      · subst h2; simpa using hl
      · exfalso
        exact hnd.1 (hqk ▸ List.mem_map.mpr ⟨q, h2, rfl⟩)
    · simp [List.lookup, beq_false_of_ne hk] at hl
      rcases List.mem_cons.mp hq with h2 | h2
      · exfalso; subst h2; exact hk hqk.symm
      · exact ih hnd.2 hl q h2 hqk

theorem paths_setKey {k : String} {v fi : FileInfo} {m : List (String × FileInfo)}
    (hnd : (m.map Prod.fst).Nodup) (hl : List.lookup k m = some fi)
    (hpath : v.path = fi.path) :
    (setKey k v m).map (fun p => p.2.path) = m.map (fun p => p.2.path) := by
  simp only [setKey, List.map_map]
  apply List.map_congr_left
  intro p hp
  by_cases h : p.1 = k
  · have := lookup_unique hnd hl p hp h
    simp [h, hpath, this]
  · simp [beq_false_of_ne h, h]

theorem mem_sortFiles {sortBy : String} {l : List FileInfo} {x : FileInfo} :
    x ∈ sortFiles sortBy l ↔ x ∈ l := by
  unfold sortFiles
  split <;> exact (List.perm_insertionSort _ _).mem_iff

/-! ## Claim theorems -/

/-- C1: the limit pre-check of downloadFile (core.go line 402) reads the
Downloads counter with no lock held, separately from the locked
increment (line 409).  Sequentially the limit is enforced (a record at
downloads = maxDownloads = 1 answers LimitReached and is left
unchanged), but under the interleaving in which both threads run the
unlocked check before either increment, two concurrent downloads of a
fresh maxDownloads = 1 record both succeed and leave downloads = 2,
exceeding the limit — the lost-update race the claim says cannot
happen. -/
theorem downloadLimit_race :
    raceRun 1 [true, false, true, false] { downloads := 0, pc1 := 0, pc2 := 0 } =
      { downloads := 2, pc1 := 2, pc2 := 2 } ∧
    ¬ ((2 : Int) ≤ 1) ∧
    downloadFile 500 "m" "" sysLim = (sysLim, DownloadResult.limitReached) := by
  decide

/-- C2 counterexample: at time 200 the record fiExp (expiresAt = 100) is
past expiry, yet the /info/ handler still answers it successfully and it
still appears in the /manage and /search listings — refuting the claim
that once expiresAt is past, an info lookup fails and the record is
absent from any later listing. -/
theorem infoExpired_cex :
    fiExp.expiresAt < 200 ∧
    fileInfo "e" sysMix = InfoResult.ok fiExp ∧
    fiExp ∈ (manageFiles sysMix).2 ∧
    fiExp ∈ (searchFiles "" "" "" sysMix).2 := by
  decide

/-- C3: saveMetadata performs its os.WriteFile while holding the read
lock, cleanup performs os.Remove while holding the write lock, and when
cleanup removes at least one record it calls saveMetadata before its
deferred Unlock runs, so the RLock inside saveMetadata blocks forever
on the non-reentrant RWMutex — the sweeper deadlocks.  bulkDelete also
removes content bytes under the write lock.  By contrast the download
path serves bytes with no lock held and completes. -/
theorem lockIO_eval :
    ioFreeOfLock lockFree saveMetadataTrace = false ∧
    ioFreeOfLock lockFree (cleanupTrace 200 sysMix) = false ∧
    runTrace lockFree (cleanupTrace 200 sysMix) = none ∧
    runTrace lockFree saveMetadataTrace = some lockFree ∧
    ioFreeOfLock lockFree (bulkDeleteTrace ["l"] sysMix) = false ∧
    ioFreeOfLock lockFree (downloadTrace fiLive.path) = true ∧
    runTrace lockFree (downloadTrace fiLive.path) = some lockFree := by
  decide

/-- C7 counterexample: deleting the absent id ghost leaves the state
unchanged but answers the error constructor notFound (the 404 File not
found branch of deleteFile), refuting the claim that removing an absent
id produces no error. -/
theorem deleteAbsent_cex :
    deleteFile "ghost" sysLim = (sysLim, DeleteResult.notFound) ∧
    DeleteResult.notFound ≠ DeleteResult.deleted := by
  decide

/-- C8: evaluating cleanup at time 200 on a state holding one expired
and one live record: exactly the eligible record is removed from both
registry and content store, and on an idle tick nothing is removed and
no save is attempted.  But the per-record order is content bytes first,
registry entry second (removesRegistryThenContent is false), and the
triggered save deadlocks: the trace contains writeSnapshot yet its run
from the free lock is stuck, because the RLock inside saveMetadata runs before
the deferred Unlock of cleanup releases the write lock, so the snapshot is
never written and the sweeper never ticks again. -/
theorem cleanupSweep_eval :
    (cleanup 200 sysMix).1 = sysLive ∧
    (cleanup 200 sysMix).2 = 1 ∧
    (cleanup 200 sysLive).1 = sysLive ∧
    (cleanup 200 sysLive).2 = 0 ∧
    cleanupTrace 200 sysLive = [Act.lockW, Act.unlockW] ∧
    removesRegistryThenContent (cleanupTrace 200 sysMix) "e" fiExp.path = false ∧
    Act.writeSnapshot ∈ cleanupTrace 200 sysMix ∧
    runTrace lockFree (cleanupTrace 200 sysMix) = none := by
  decide

/-- C9 counterexample: on a two-record registry with no filters, the
search handler returns both records whatever pagination parameters the
request carries (it reads none), while the pipeline claimed by the spec
with limit = 1 returns a single record — so search is not optionally
paginated as claimed. -/
theorem searchPagination_cex :
    (searchFiles "" "" "" sysMix).2.length = 2 ∧
    (queryEngineSpec "" "" "" (some 1) none sysMix).length = 1 ∧
    (searchFiles "" "" "" sysMix).2 ≠ queryEngineSpec "" "" "" (some 1) none sysMix := by
  decide

theorem bulkDelete_absent :
    ∀ (ids : List String) (s : Sys), (∀ i ∈ ids, List.lookup i s.files = none) →
      bulkDelete ids s = (s, 0) := by
  intro ids
  induction ids with
  | nil => intro s _; rfl
  | cons i rest ih =>
    intro s hall
    have h0 : List.lookup i s.files = none := hall i (List.mem_cons_self i rest)
    show List.foldl _ _ _ = _
    rw [List.foldl_cons]
    have hstep : bulkStep (s, 0) i = (s, 0) := by simp [bulkStep, h0]
    rw [hstep]
    exact ih s (fun j hj => hall j (List.mem_cons_of_mem i hj))

/-- C7 (amended): removing an absent id never changes any observable
state, and the bulk-delete endpoint treats absent ids as silent no-ops
(deleted count 0, no error); but the single-delete endpoint answers the
error result notFound (HTTP 404) for an absent id instead of reporting
success, so single delete is not error-free idempotent as claimed. -/
theorem deleteAbsent_amended (ids : List String) (id : String) (s : Sys)
    (h : List.lookup id s.files = none)
    (hall : ∀ i ∈ ids, List.lookup i s.files = none) :
    deleteFile id s = (s, DeleteResult.notFound) ∧
    bulkDelete ids s = (s, 0) := by
  constructor
  · simp [deleteFile, h]
  · exact bulkDelete_absent ids s hall

theorem deleteAbsent_amended_w :
    deleteFile "zz" sysMix = (sysMix, DeleteResult.notFound) ∧
    bulkDelete ["zz"] sysMix = (sysMix, 0) :=
  deleteAbsent_amended ["zz"] "zz" sysMix (by decide) (by decide)

/-- C2 (amended): once expiresAt is in the past, a download attempt
(that passes the password check) fails with the expiry error and
removes the record and its bytes; after that removal the info lookup
fails with notFound and no record with that id appears in the manage
or search listings.  (An info lookup or listing before such a removal
still returns the expired record, as infoExpired_cex shows: the lazy
expiry check lives only in the download handler.) -/
theorem downloadExpired_amended (now : Int) (id pw : String) (s : Sys) (fi : FileInfo)
    (hlook : List.lookup id s.files = some fi)
    (hpw : (fi.password != "" && fi.password != pw) = false)
    (hexp : fi.expiresAt < now)
    (hcoh : ∀ p ∈ s.files, p.2.id = p.1) :
    (downloadFile now id pw s).2 = DownloadResult.expired ∧
    (downloadFile now id pw s).1.files = eraseKey id s.files ∧
    fileInfo id (downloadFile now id pw s).1 = InfoResult.notFound ∧
    (∀ g ∈ (manageFiles (downloadFile now id pw s).1).2, g.id ≠ id) ∧
    (∀ q tag sb g, g ∈ (searchFiles q tag sb (downloadFile now id pw s).1).2 → g.id ≠ id) := by
  have hdl : downloadFile now id pw s =
      ({ files := eraseKey id s.files, disk := eraseKey fi.path s.disk }, .expired) := by
    simp [downloadFile, hlook, hpw, hexp]
  have habsent : ∀ g, g ∈ (eraseKey id s.files).map Prod.snd → g.id ≠ id := by
    intro g hg
    rcases List.mem_map.mp hg with ⟨pq, hpq, hpg⟩
    obtain ⟨hpmem, hpne⟩ := mem_eraseKey.mp hpq
    have := hcoh pq hpmem
    rw [← hpg, this]
    exact hpne
  refine ⟨by rw [hdl], by rw [hdl], ?_, ?_, ?_⟩
  · rw [hdl]
    simp [fileInfo, lookup_eraseKey_self]
  · intro g hg
    rw [hdl] at hg
    exact habsent g ((List.perm_insertionSort _ _).mem_iff.mp hg)
  · intro q tag sb g hg
    rw [hdl] at hg
    have := mem_sortFiles.mp hg
    exact habsent g (List.mem_filter.mp this).1

theorem downloadExpired_amended_w :
    (downloadFile 200 "e" "" sysMix).2 = DownloadResult.expired ∧
    (downloadFile 200 "e" "" sysMix).1.files = eraseKey "e" sysMix.files ∧
    fileInfo "e" (downloadFile 200 "e" "" sysMix).1 = InfoResult.notFound ∧
    (∀ g ∈ (manageFiles (downloadFile 200 "e" "" sysMix).1).2, g.id ≠ "e") ∧
    (∀ q tag sb g, g ∈ (searchFiles q tag sb (downloadFile 200 "e" "" sysMix).1).2 → g.id ≠ "e") :=
  downloadExpired_amended 200 "e" "" sysMix fiExp (by decide) (by decide) (by decide) (by decide)

/-- C10: the non-empty password of a record is carried verbatim in the
serialized JSON of the read-only endpoints: the password field survives
omitempty whenever it is non-empty, /info/ serializes the full record,
and the serialization of the record (password included) appears in the
/manage listing and in an unfiltered /search response — any client able
to look up or list the record learns the shared secret. -/
theorem passwordSerialized (s : Sys) (id : String) (fi : FileInfo)
    (hlook : List.lookup id s.files = some fi)
    (hpw : fi.password ≠ "") :
    ("password", fi.password) ∈ jsonFields fi ∧
    fileInfoJson id s = some (jsonFields fi) ∧
    jsonFields fi ∈ manageFilesJson s ∧
    jsonFields fi ∈ searchFilesJson "" "" "" s := by
  have hfi : fi ∈ s.files.map Prod.snd :=
    List.mem_map.mpr ⟨(id, fi), mem_of_lookup_eq_some hlook, rfl⟩
  refine ⟨?_, ?_, ?_, ?_⟩
  · simp [jsonFields, hpw]
  · simp [fileInfoJson, hlook]
  · exact List.mem_map.mpr
      ⟨fi, (List.perm_insertionSort _ _).mem_iff.mpr hfi, rfl⟩
  · refine List.mem_map.mpr ⟨fi, ?_, rfl⟩
    show fi ∈ sortFiles "" ((s.files.map Prod.snd).filter (searchMatches "" ""))
    apply mem_sortFiles.mpr
    apply List.mem_filter.mpr
    exact ⟨hfi, by simp [searchMatches]⟩

theorem passwordSerialized_w :
    ("password", fiLive.password) ∈ jsonFields fiLive ∧
    fileInfoJson "l" sysMix = some (jsonFields fiLive) ∧
    jsonFields fiLive ∈ manageFilesJson sysMix ∧
    jsonFields fiLive ∈ searchFilesJson "" "" "" sysMix :=
  passwordSerialized sysMix "l" fiLive (by decide) (by decide)

theorem decode_encode (f : FileInfo) : decodeFileInfo (encodeFileInfo f) = f := by
  by_cases h : f.password = ""
  · simp only [encodeFileInfo, decodeFileInfo, h, if_pos, Option.getD_none]
    rw [← h]
  · simp [encodeFileInfo, decodeFileInfo, h]

theorem loadMetadata_saveMetadata (files : List (String × FileInfo))
    (disk : List (String × List Nat)) :
    loadMetadata (some (saveMetadata files)) disk =
      files.filter (fun p => statOk disk p.2.path) := by
  have hid : (saveMetadata files).map (fun p => (p.1, decodeFileInfo p.2)) = files := by
    rw [saveMetadata, List.map_map]
    conv_rhs => rw [← List.map_id files]
    apply List.map_congr_left
    intro p _
    simp [decode_encode]
  rw [loadMetadata, hid]

/-- C5: saving the registry and loading the snapshot back yields exactly
the records of the pre-save registry whose backing path still exists on
disk, with every field preserved; if every backing file is present the
registry is reproduced identically; and loading with no snapshot file
yields the empty registry (no error). -/
theorem saveLoad_roundtrip :
    (∀ files disk, loadMetadata (some (saveMetadata files)) disk =
        files.filter (fun p => statOk disk p.2.path)) ∧
    (∀ (files : List (String × FileInfo)) disk,
        (∀ p ∈ files, statOk disk p.2.path = true) →
        loadMetadata (some (saveMetadata files)) disk = files) ∧
    (∀ disk, loadMetadata none disk = []) := by
  refine ⟨loadMetadata_saveMetadata, ?_, fun _ => rfl⟩
  intro files disk hall
  rw [loadMetadata_saveMetadata, List.filter_eq_self.mpr hall]

theorem saveLoad_roundtrip_w :
    loadMetadata (some (saveMetadata sysMix.files)) sysMix.disk = sysMix.files :=
  saveLoad_roundtrip.2.1 sysMix.files sysMix.disk (by decide)

theorem clampLimit_bounds (raw : Option Int) :
    0 < clampLimit raw ∧ clampLimit raw ≤ 1000 := by
  cases raw with
  | none => exact ⟨by decide, by decide⟩
  | some l =>
    simp only [clampLimit]
    by_cases h : (decide (0 < l) && decide (l ≤ 1000)) = true
    · rw [if_pos h]
      simp at h
      omega
    · rw [if_neg h]
      simp

/-- C9 (amended): the search handler never mutates the registry and
returns exactly the records matching the conjunction of the optional
case-insensitive substring filter (filename or description) and the
optional case-insensitive exact tag filter, sorted descending by the
requested key (size, download count, or upload time by default) — but
it performs no pagination.  Pagination with offset >= 0 and limit
clamped into (0, 1000] (default 50) exists only in the separate list
endpoint, which applies no filters and always sorts by upload time
descending. -/
theorem searchQuery_amended :
    (∀ q tag sb s, (searchFiles q tag sb s).1 = s) ∧
    (∀ q tag sb s x, x ∈ (searchFiles q tag sb s).2 ↔
        x ∈ s.files.map Prod.snd ∧ searchMatches q tag x = true) ∧
    (∀ q tag s, List.Pairwise bySizeDesc (searchFiles q tag "size" s).2) ∧
    (∀ q tag s, List.Pairwise byDownloadsDesc (searchFiles q tag "downloads" s).2) ∧
    (∀ q tag s, List.Pairwise byTimeDesc (searchFiles q tag "" s).2) ∧
    (∀ rawL rawO s, (listFilesAPI rawL rawO s).1 = s ∧
        (listFilesAPI rawL rawO s).2.1 =
          ((List.insertionSort byTimeDesc (s.files.map Prod.snd)).drop
            (clampOffset rawO)).take (clampLimit rawL) ∧
        (listFilesAPI rawL rawO s).2.1.length ≤ clampLimit rawL ∧
        0 < clampLimit rawL ∧ clampLimit rawL ≤ 1000 ∧
        (listFilesAPI rawL rawO s).2.2 = s.files.length) := by
  refine ⟨fun q tag sb s => rfl, ?_, ?_, ?_, ?_, ?_⟩
  · intro q tag sb s x
    show x ∈ sortFiles sb _ ↔ _
    rw [mem_sortFiles, List.mem_filter]
  · intro q tag s
    exact List.sorted_insertionSort bySizeDesc _
  · intro q tag s
    exact List.sorted_insertionSort byDownloadsDesc _
  · intro q tag s
    exact List.sorted_insertionSort byTimeDesc _
  · intro rawL rawO s
    refine ⟨rfl, rfl, ?_, (clampLimit_bounds rawL).1, (clampLimit_bounds rawL).2, ?_⟩
    · exact List.length_take_le _ _
    · show ((List.insertionSort byTimeDesc (s.files.map Prod.snd)).length) = _
      rw [(List.perm_insertionSort _ _).length_eq, List.length_map]

/-! ## C4 machinery: the registry/content-store invariant -/

theorem lookup_none_keys {α : Type} {k : String} :
    ∀ {m : List (String × α)}, List.lookup k m = none → ∀ p ∈ m, p.1 ≠ k := by
  intro m
  induction m with
  | nil => intro _ p hp; simp at hp
  | cons a m ih =>
    obtain ⟨ka, va⟩ := a
    intro h p hp
    by_cases hk : k = ka
    · subst hk
      simp only [List.lookup, beq_self_eq_true] at h
      exact absurd h (by simp)
    · simp only [List.lookup, beq_false_of_ne hk] at h
      rcases List.mem_cons.mp hp with h2 | h2
      · subst h2; exact fun he => hk he.symm
      · exact ih h p h2

theorem eraseKey_eq_self {α : Type} {k : String} {m : List (String × α)}
    (h : ∀ p ∈ m, p.1 ≠ k) : eraseKey k m = m := by
  apply List.filter_eq_self.mpr
  intro p hp
  simpa using h p hp

/-- Removing one record (key k, value fi taken from the path-distinct
list B covering the current registry) and its path keeps every
path of every remaining record resolvable. -/
theorem erase_pair_pres {B accF : List (String × FileInfo)}
    {accD : List (String × List Nat)} {k : String} {fi : FileInfo}
    (hB : pathsNodup B) (hsub : accF.Sublist B)
    (hreg : ∀ p ∈ accF, (List.lookup p.2.path accD).isSome = true)
    (hmem : (k, fi) ∈ B) :
    (eraseKey k accF).Sublist B ∧
    ∀ p ∈ eraseKey k accF,
      (List.lookup p.2.path (eraseKey fi.path accD)).isSome = true := by
  refine ⟨(List.filter_sublist _).trans hsub, ?_⟩
  intro p hp
  obtain ⟨hpacc, hpk⟩ := mem_eraseKey.mp hp
  have hpB : p ∈ B := hsub.subset hpacc
  have hne : p.2.path ≠ fi.path := by
    intro he
    have heq := List.inj_on_of_nodup_map hB hpB hmem he
    exact hpk (congrArg Prod.fst heq)
  rw [lookup_eraseKey_ne _ hne]
  exact hreg p hpacc

/-- Removing one present record and its bytes preserves the invariant. -/
theorem erase_sys_inv {s : Sys} {id : String} {fi : FileInfo} (h : SysInv s)
    (hlook : List.lookup id s.files = some fi) :
    SysInv { files := eraseKey id s.files, disk := eraseKey fi.path s.disk } := by
  obtain ⟨hkeys, hpaths, hreg⟩ := h
  have hpres := erase_pair_pres hpaths (List.Sublist.refl _) hreg
    (mem_of_lookup_eq_some hlook)
  exact ⟨List.Nodup.sublist (hpres.1.map Prod.fst) hkeys,
         List.Nodup.sublist (hpres.1.map _) hpaths, hpres.2⟩

theorem downloadFile_inv (now : Int) (id pw : String) (s : Sys) (h : SysInv s) :
    SysInv (downloadFile now id pw s).1 := by
  obtain ⟨hkeys, hpaths, hreg⟩ := h
  rcases hlook : List.lookup id s.files with _ | fi
  · simp only [downloadFile, hlook]
    exact ⟨hkeys, hpaths, hreg⟩
  · by_cases hpw : (fi.password != "" && fi.password != pw) = true
    · simp only [downloadFile, hlook, hpw, if_pos]
      exact ⟨hkeys, hpaths, hreg⟩
    · by_cases hexp : fi.expiresAt < now
      · have heq : (downloadFile now id pw s).1 =
            { files := eraseKey id s.files, disk := eraseKey fi.path s.disk } := by
          simp [downloadFile, hlook, hpw, hexp]
        rw [heq]
        exact erase_sys_inv ⟨hkeys, hpaths, hreg⟩ hlook
      · by_cases hlim : (decide (fi.maxDownloads > 0) && decide (fi.maxDownloads ≤ fi.downloads)) = true
        · have heq : (downloadFile now id pw s).1 = s := by
            simp [downloadFile, hlook, hpw, hexp, hlim]
          rw [heq]
          exact ⟨hkeys, hpaths, hreg⟩
        · have heq : (downloadFile now id pw s).1 =
              Sys.mk (setKey id { fi with downloads := fi.downloads + 1 } s.files)
                s.disk := by
            simp [downloadFile, hlook, hpw, hexp, hlim]
          rw [heq]
          refine ⟨?_, ?_, ?_⟩
          · show ((setKey id _ s.files).map Prod.fst).Nodup
            rw [keys_setKey]
            exact hkeys
          · show ((setKey id _ s.files).map (fun p => p.2.path)).Nodup
            rw [paths_setKey (v := { fi with downloads := fi.downloads + 1 }) hkeys hlook rfl]
            exact hpaths
          · intro p hp
            rcases mem_setKey hp with ⟨hpmem, _⟩ | hpe
            · exact hreg p hpmem
            · rw [hpe]
              exact hreg (id, fi) (mem_of_lookup_eq_some hlook)

theorem deleteFile_inv (id : String) (s : Sys) (h : SysInv s) :
    SysInv (deleteFile id s).1 := by
  rcases hlook : List.lookup id s.files with _ | fi
  · simpa [deleteFile, hlook] using h
  · have heq : (deleteFile id s).1 =
        { files := eraseKey id s.files, disk := eraseKey fi.path s.disk } := by
      simp [deleteFile, hlook]
    rw [heq]
    exact erase_sys_inv h hlook

theorem uploadFile_inv (outcome : UploadOutcome) (p : UploadParams) (s : Sys)
    (h : SysInv s) (hid : List.lookup p.fileID s.files = none)
    (hpath : ∀ q ∈ s.files, q.2.path ≠ (mkFileInfo p).path) :
    SysInv (uploadFile outcome p s).1 := by
  obtain ⟨hkeys, hpaths, hreg⟩ := h
  cases outcome with
  | tempFail => exact ⟨hkeys, hpaths, hreg⟩
  | dstCreateFail => exact ⟨hkeys, hpaths, hreg⟩
  | dstCopyFail written =>
    refine ⟨hkeys, hpaths, ?_⟩
    intro q hq
    show (List.lookup q.2.path (insertKey (mkFileInfo p).path written s.disk)).isSome = true
    by_cases hq2 : q.2.path = (mkFileInfo p).path
    · rw [hq2, lookup_insertKey_self]; rfl
    · rw [lookup_insertKey_ne _ _ hq2]
      exact hreg q hq
  | success =>
    have herase : eraseKey p.fileID s.files = s.files :=
      eraseKey_eq_self (lookup_none_keys hid)
    refine ⟨?_, ?_, ?_⟩
    · show ((insertKey p.fileID (mkFileInfo p) s.files).map Prod.fst).Nodup
      rw [insertKey, herase, List.map_append]
      refine List.Nodup.append hkeys (List.nodup_singleton _) ?_
      intro a ha hb
      simp only [List.map_cons, List.map_nil, List.mem_singleton] at hb
      rcases List.mem_map.mp ha with ⟨q, hqmem, hq⟩
      exact lookup_none_keys hid q hqmem (hb ▸ hq)
    · show ((insertKey p.fileID (mkFileInfo p) s.files).map (fun q => q.2.path)).Nodup
      rw [insertKey, herase, List.map_append]
      refine List.Nodup.append hpaths (List.nodup_singleton _) ?_
      intro a ha hb
      simp only [List.map_cons, List.map_nil, List.mem_singleton] at hb
      rcases List.mem_map.mp ha with ⟨q, hqmem, hq⟩
      exact hpath q hqmem (hb ▸ hq)
    · intro q hq
      rcases mem_insertKey hq with hq2 | ⟨hqmem, _⟩
      · rw [hq2]
        show (List.lookup (mkFileInfo p).path (insertKey (mkFileInfo p).path p.bytes s.disk)).isSome = true
        rw [lookup_insertKey_self]
        rfl
      · have hne : q.2.path ≠ (mkFileInfo p).path := hpath q hqmem
        show (List.lookup q.2.path (insertKey (mkFileInfo p).path p.bytes s.disk)).isSome = true
        rw [lookup_insertKey_ne _ _ hne]
        exact hreg q hqmem

theorem bulkFold_fst : ∀ (ids : List String) (s : Sys) (n m : Nat),
    (List.foldl bulkStep (s, n) ids).1 = (List.foldl bulkStep (s, m) ids).1 := by
  intro ids
  induction ids with
  | nil => intro s n m; rfl
  | cons i rest ih =>
    intro s n m
    rw [List.foldl_cons, List.foldl_cons]
    rcases hlook : List.lookup i s.files with _ | fi
    · simp only [bulkStep, hlook]
      exact ih s n m
    · simp only [bulkStep, hlook]
      exact ih _ _ _

theorem bulkDelete_inv (ids : List String) (s : Sys) (h : SysInv s) :
    SysInv (bulkDelete ids s).1 := by
  induction ids generalizing s with
  | nil => exact h
  | cons i rest ih =>
    show SysInv (List.foldl bulkStep (bulkStep (s, 0) i) rest).1
    rcases hlook : List.lookup i s.files with _ | fi
    · have hstep : bulkStep (s, 0) i = (s, 0) := by simp [bulkStep, hlook]
      rw [hstep]
      exact ih s h
    · have hstep : bulkStep (s, 0) i =
          ({ files := eraseKey i s.files, disk := eraseKey fi.path s.disk }, 1) := by
        simp [bulkStep, hlook]
      rw [hstep, bulkFold_fst rest _ 1 0]
      exact ih _ (erase_sys_inv h hlook)

theorem cleanup_go (now : Int) (B : List (String × FileInfo)) (hB : pathsNodup B) :
    ∀ (l : List (String × FileInfo)) (acc : Sys × Nat),
      (∀ p ∈ l, p ∈ B) →
      acc.1.files.Sublist B →
      (∀ p ∈ acc.1.files, (List.lookup p.2.path acc.1.disk).isSome = true) →
      (List.foldl (cleanupStep now) acc l).1.files.Sublist B ∧
      ∀ p ∈ (List.foldl (cleanupStep now) acc l).1.files,
        (List.lookup p.2.path (List.foldl (cleanupStep now) acc l).1.disk).isSome = true := by
  intro l
  induction l with
  | nil => intro acc _ h1 h2; exact ⟨h1, h2⟩
  | cons p rest ih =>
    intro acc hmem hsub hreg
    rw [List.foldl_cons]
    have hrest : ∀ q ∈ rest, q ∈ B := fun q hq => hmem q (List.mem_cons_of_mem _ hq)
    by_cases hc : cleanupEligible now p.2 = true
    · have hstep : cleanupStep now acc p =
          ({ files := eraseKey p.1 acc.1.files, disk := eraseKey p.2.path acc.1.disk },
           acc.2 + 1) := by
        simp [cleanupStep, hc]
      rw [hstep]
      have hpB : (p.1, p.2) ∈ B := hmem p (List.mem_cons_self _ _)
      have hpres := erase_pair_pres hB hsub hreg hpB
      exact ih _ hrest hpres.1 hpres.2
    · have hstep : cleanupStep now acc p = acc := by simp [cleanupStep, hc]
      rw [hstep]
      exact ih acc hrest hsub hreg

theorem cleanup_inv (now : Int) (s : Sys) (h : SysInv s) :
    SysInv (cleanup now s).1 := by
  obtain ⟨hkeys, hpaths, hreg⟩ := h
  have hgo := cleanup_go now s.files hpaths s.files (s, 0)
    (fun p hp => hp) (List.Sublist.refl _) hreg
  exact ⟨List.Nodup.sublist (hgo.1.map Prod.fst) hkeys,
         List.Nodup.sublist (hgo.1.map _) hpaths, hgo.2⟩

/-- C4: consistency of registry and content store.  Every failing
upload path leaves the registry untouched, so a record is inserted only
once its bytes sit at their final path (which the success case places
together with the record); every operation — upload with a fresh id and
path, download (including lazy expiry), delete, bulk delete, sweeper
cleanup — preserves the invariant that the path of each registry record
resolves to bytes on disk (with distinct ids and paths); deletion
removes both the record and its bytes; and startup loadMetadata only
ever produces records whose path resolves on disk, with a missing
snapshot yielding the empty registry. -/
theorem registryDisk_inv :
    (∀ outcome p s, outcome ≠ UploadOutcome.success →
       (uploadFile outcome p s).1.files = s.files) ∧
    (∀ p s, List.lookup p.fileID (uploadFile UploadOutcome.success p s).1.files =
         some (mkFileInfo p) ∧
       List.lookup (mkFileInfo p).path (uploadFile UploadOutcome.success p s).1.disk =
         some p.bytes) ∧
    (∀ outcome p s, SysInv s → List.lookup p.fileID s.files = none →
       (∀ q ∈ s.files, q.2.path ≠ (mkFileInfo p).path) →
       SysInv (uploadFile outcome p s).1) ∧
    (∀ now id pw s, SysInv s → SysInv (downloadFile now id pw s).1) ∧
    (∀ id s, SysInv s → SysInv (deleteFile id s).1) ∧
    (∀ id s fi, List.lookup id s.files = some fi →
       List.lookup id (deleteFile id s).1.files = none ∧
       List.lookup fi.path (deleteFile id s).1.disk = none) ∧
    (∀ ids s, SysInv s → SysInv (bulkDelete ids s).1) ∧
    (∀ now s, SysInv s → SysInv (cleanup now s).1) ∧
    (∀ snap disk, (∀ p ∈ loadMetadata snap disk,
         (List.lookup p.2.path disk).isSome = true) ∧
       loadMetadata none disk = []) := by
  refine ⟨?_, ?_, uploadFile_inv, downloadFile_inv, deleteFile_inv, ?_,
    bulkDelete_inv, cleanup_inv, ?_⟩
  · intro outcome p s hne
    cases outcome with
    | tempFail => rfl
    | dstCreateFail => rfl
    | dstCopyFail written => rfl
    | success => exact absurd rfl hne
  · intro p s
    exact ⟨lookup_insertKey_self _ _ _, lookup_insertKey_self _ _ _⟩
  · intro id s fi hlook
    have heq : (deleteFile id s).1 =
        { files := eraseKey id s.files, disk := eraseKey fi.path s.disk } := by
      simp [deleteFile, hlook]
    rw [heq]
    exact ⟨lookup_eraseKey_self _ _, lookup_eraseKey_self _ _⟩
  · intro snap disk
    refine ⟨?_, rfl⟩
    cases snap with
    | none => intro p hp; simp [loadMetadata] at hp
    | some ws =>
      intro p hp
      have := (List.mem_filter.mp hp).2
      simpa [statOk] using this

/-- C6: the checksum stored by a successful upload equals the SHA-256
hex digest of exactly the bytes placed at the final path of the record on
disk (sha256Hex is the full crypto/sha256 algorithm, pinned by the
concrete digest checks near its definition), computed at upload time;
and a subsequent successful download returns the stored bytes together
with the stored content type and the stored digest as the X-Checksum
header — the download handler recomputes nothing. -/
theorem uploadChecksum (p : UploadParams) (s : Sys) :
    (uploadFile UploadOutcome.success p s).2 = some (mkFileInfo p) ∧
    List.lookup (mkFileInfo p).path (uploadFile UploadOutcome.success p s).1.disk =
      some p.bytes ∧
    (mkFileInfo p).checksum = sha256Hex p.bytes ∧
    (∀ now pw, (p.password != "" && p.password != pw) = false →
      ¬ (p.now + p.ttl < now) →
      (downloadFile now p.fileID pw (uploadFile UploadOutcome.success p s).1).2 =
        DownloadResult.ok (some p.bytes) p.contentType (sha256Hex p.bytes)) := by
  refine ⟨rfl, lookup_insertKey_self _ _ _, rfl, ?_⟩
  intro now pw hpw hexp
  have hlook : List.lookup p.fileID (uploadFile UploadOutcome.success p s).1.files =
      some (mkFileInfo p) := lookup_insertKey_self _ _ _
  have h1 : (mkFileInfo p).password = p.password := rfl
  have h2 : (mkFileInfo p).expiresAt = p.now + p.ttl := rfl
  have h3 : (mkFileInfo p).downloads = 0 := rfl
  have h4 : (mkFileInfo p).maxDownloads = p.maxDownloads := rfl
  have hlimf : (decide ((mkFileInfo p).maxDownloads > 0) &&
      decide ((mkFileInfo p).maxDownloads ≤ (mkFileInfo p).downloads)) = false := by
    rw [h3, h4]
    simp only [Bool.and_eq_false_iff, decide_eq_false_iff_not]
    omega
  simp only [downloadFile, hlook, h1, hpw, h2, hexp, hlimf, Bool.false_eq_true,
    if_false, if_neg hexp]
  have hbody : List.lookup (mkFileInfo p).path
      (uploadFile UploadOutcome.success p s).1.disk = some p.bytes :=
    lookup_insertKey_self _ _ _
  rw [hbody]
  rfl

theorem uploadChecksum_w :
    (uploadFile UploadOutcome.success upTest sysMix).2 = some (mkFileInfo upTest) ∧
    List.lookup (mkFileInfo upTest).path
      (uploadFile UploadOutcome.success upTest sysMix).1.disk = some upTest.bytes ∧
    (mkFileInfo upTest).checksum = sha256Hex upTest.bytes ∧
    (downloadFile 50 "fid" "" (uploadFile UploadOutcome.success upTest sysMix).1).2 =
      DownloadResult.ok (some upTest.bytes) upTest.contentType (sha256Hex upTest.bytes) := by
  obtain ⟨h1, h2, h3, h4⟩ := uploadChecksum upTest sysMix
  exact ⟨h1, h2, h3, h4 50 "" (by decide) (by decide)⟩

theorem registryDisk_inv_w :
    SysInv sysMix ∧ SysInv (downloadFile 200 "e" "" sysMix).1 ∧
    SysInv (cleanup 200 sysMix).1 ∧ SysInv (bulkDelete ["l"] sysMix).1 :=
  ⟨by decide,
   registryDisk_inv.2.2.2.1 200 "e" "" sysMix (by decide),
   registryDisk_inv.2.2.2.2.2.2.2.1 200 sysMix (by decide),
   registryDisk_inv.2.2.2.2.2.2.1 ["l"] sysMix (by decide)⟩

end Uploads
